import Mathlib

/-!
# Verification of the melonJS excerpt

A shallow embedding, in Lean 4, of the parts of the melonJS game engine excerpt
that the specification talks about:

* the TMX utility module (`setTMXValue`, `decode`, `decodeCSV`,
  `decodeBase64AsArray`, `decompress`, and the `data` case of `normalize`);
* the `Path2D` class (`closePath`, `arc`, `triangulatePath`);
* the Container child-ownership discipline.

JavaScript exceptions are embedded as `Except String`, JS strings as `String`,
JS numbers as `ℚ` (TMX module, where only equality and carrying values matter)
or `ℝ` (geometry module, where trigonometry matters).  External collaborators
that the excerpt imports but that are not part of it (the browser `atob`,
JavaScript `ToNumber`, `JSON.parse`, `Function` evaluation, the `earcut`
package, the predicates from `utils/string.js`) are taken as parameters, so
every theorem holds for all of their possible behaviours.
-/

namespace MelonJS

/-! ## TMX value model

JavaScript values flowing through the TMX property pipeline: strings, numbers,
booleans, the `{x, y}` vector records produced by the `ratio`/`anchorPoint`
normalisation, and opaque objects (results of `JSON.parse` / `Function`
evaluation that are not primitives). -/

inductive TmxValue where
  | str (s : String)
  | num (q : ℚ)
  | bool (b : Bool)
  | vec (x y : ℚ)
  | obj (id : ℕ)
  deriving DecidableEq, Repr

/-- The trailing "normalize values" step of `setTMXValue`: for the property
names `ratio` and `anchorPoint` (the regex `/^(ratio|anchorPoint)$/` anchored
on both sides, so exact equality), a numeric value is turned into an `{x, y}`
record with both components equal to it.  Other values are left alone. -/
def vectorFix (name : String) (v : TmxValue) : TmxValue :=
  if name = "ratio" ∨ name = "anchorPoint" then
    match v with
    | .num q => .vec q q
    | w => w
  else v

/-- hexadecimal digit test, as in the character classes `[\da-fA-F]`. -/
def hexDigit (c : Char) : Bool :=
  c.isDigit || ('a' ≤ c && c ≤ 'f') || ('A' ≤ c && c ≤ 'F')

/-- The colour-swap branch of `setTMXValue`: a string matching
`/^#([\da-fA-F])([\da-fA-F]{3})$/` or `/^#([\da-fA-F]{2})([\da-fA-F]{6})$/`
is rewritten to `"#" + match[2] + match[1]`; anything else is passed through
unchanged (`none`). -/
def colorSwap (s : String) : Option String :=
  match s.toList with
  | '#' :: rest =>
    if rest.length = 4 && rest.all hexDigit then
      some ("#" ++ String.mk (rest.drop 1) ++ String.mk (rest.take 1))
    else if rest.length = 8 && rest.all hexDigit then
      some ("#" ++ String.mk (rest.drop 2) ++ String.mk (rest.take 2))
    else none
  | _ => none

/-- the test `value.search(/^json:/i) === 0`: case-insensitive check for the
five character tag `json:` at the start of the string (likewise for `eval:`).
The payload `value.split(/^json:/i)[1]` is then `s.drop 5`. -/
def hasTag (tag : String) (s : String) : Bool :=
  (s.toList.take 5).map Char.toLower = tag.toList

/-- Embedding of `setTMXValue(name, type, value)` from the TMX utility module.

The external collaborators are parameters:
`isBooleanFn`/`isNumericFn` stand for `isBoolean`/`isNumeric` from
`utils/string.js` (imported by the module but not part of the excerpt),
`toNumber` for JavaScript `Number(...)`, `jsonParse` for `JSON.parse`
(`none` = the parse throws), and `evalFn` for `Function("'use strict';return
(" + match + ")")()` (`none` = the evaluation throws).

A non-string value is returned unchanged.  Types `int`/`float` go through
`Number`, `bool` compares against `"true"`.  Any other type takes the
default-heuristic branch: a falsy (empty) or boolean-looking string becomes a
`Bool` (an empty string becomes `true`), a numeric string goes through
`Number`, a `json:`/`eval:` tagged string is parsed or evaluated (raising
`Error("Unable to parse JSON: " + match)` resp. `Error("Unable to evaluate: "
+ match)` on failure), a colour literal has its components swapped, and the
result then passes through the `ratio`/`anchorPoint` normalisation. -/
def setTMXValue (isBooleanFn isNumericFn : String → Bool) (toNumber : String → ℚ)
    (jsonParse : String → Option TmxValue) (evalFn : String → Option TmxValue)
    (name type : String) (value : TmxValue) : Except String TmxValue :=
  match value with
  | .str s =>
    if type = "int" ∨ type = "float" then
      .ok (.num (toNumber s))
    else if type = "bool" then
      .ok (.bool (s == "true"))
    else
      let stepped : Except String TmxValue :=
        if s = "" ∨ isBooleanFn s then
          .ok (.bool (if s = "" then true else s == "true"))
        else if isNumericFn s then
          .ok (.num (toNumber s))
        else if hasTag "json:" s then
          match jsonParse (s.drop 5) with
          | some v => .ok v
          | none => .error ("Unable to parse JSON: " ++ s.drop 5)
        else if hasTag "eval:" s then
          match evalFn (s.drop 5) with
          | some v => .ok v
          | none => .error ("Unable to evaluate: " ++ s.drop 5)
        else
          match colorSwap s with
          | some s2 => .ok (.str s2)
          | none => .ok (.str s)
      stepped.map (vectorFix name)
  | v => .ok v

/-! ## TMX layer-data decoding -/

/-- Decoded tile-layer data: either the raw string (encoding `"none"`), a list
of numbers (CSV), or a list of 32-bit words (base64). -/
inductive TileData where
  | str (s : String)
  | nums (l : List ℚ)
  | words (l : List ℕ)
  deriving DecidableEq, Repr

/-- JavaScript `x || dflt` defaulting for an optional string attribute: both
`undefined` and the empty string are falsy. -/
def jsOr (o : Option String) (dflt : String) : String :=
  match o with
  | some s => if s = "" then dflt else s
  | none => dflt

/-- Embedding of `decompress()`: it unconditionally throws
`Error("GZIP/ZLIB compressed TMX Tile Map not supported!")`. -/
def decompress : Except String (List ℕ) :=
  .error "GZIP/ZLIB compressed TMX Tile Map not supported!"

/-- the call `input.replace("\n", "")`: with a string pattern, JavaScript
`replace` removes only the first occurrence of `"\n"`. -/
def removeFirstNewline : List Char → List Char
  | [] => []
  | c :: r => if c = '\n' then r else c :: removeFirstNewline r

/-- Embedding of `decodeCSV(input)`: drop the first newline, trim, split on
`","`, and convert each entry with the unary `+` (JavaScript `ToNumber`,
abstracted as the `toNumber` parameter). -/
def decodeCSV (toNumber : String → ℚ) (input : String) : List ℚ :=
  ((String.mk (removeFirstNewline input.toList)).trim.splitOn ",").map toNumber

/-- the character class `[A-Za-z0-9+/=]` kept by the pre-`atob` strip. -/
def base64Kept (c : Char) : Bool :=
  c.isAlphanum || c = '+' || c = '/' || c = '='

/-- Embedding of `decodeBase64AsArray(input, bytes)`.

The browser `atob` (a platform builtin, not part of the excerpt) is the
parameter `atob`, returning the decoded byte values.  `new
Uint32Array(dec.length / bytes)` throws a `RangeError` when the length is not
an integer; each output word is assembled from `bytes` consecutive byte values
shifted into place, and is stored in a 32-bit cell (hence the `% 2 ^ 32`). -/
def decodeBase64AsArray (atob : String → List ℕ) (input : String) (bytes0 : ℕ) :
    Except String (List ℕ) :=
  let bytes := if bytes0 = 0 then 1 else bytes0
  let dec := atob (String.mk (input.toList.filter base64Kept))
  if bytes ∣ dec.length then
    .ok ((List.range (dec.length / bytes)).map (fun i =>
      ((List.range bytes).foldr (fun j acc => acc + dec.getD (i * bytes + j) 0 * 2 ^ (8 * j)) 0)
        % 2 ^ 32))
  else
    .error "invalid typed array length"

/-- Embedding of `decode(data, encoding, compression)`: CSV and raw data pass
through their decoders, base64 data is decoded to 32-bit words and then—only
if a compression other than `"none"` is requested—handed to `decompress`
(which always throws); XML encoding and unknown encodings throw. -/
def decode (atob : String → List ℕ) (toNumber : String → ℚ)
    (data : String) (encoding0 compression0 : Option String) : Except String TileData :=
  let compression := jsOr compression0 "none"
  let encoding := jsOr encoding0 "none"
  match encoding with
  | "csv" => .ok (.nums (decodeCSV toNumber data))
  | "base64" => do
      let decoded ← decodeBase64AsArray atob data 4
      if compression = "none" then
        .ok (.words decoded)
      else
        do let w ← decompress; .ok (.words w)
  | "none" => .ok (.str data)
  | "xml" => .error "XML encoding is deprecated, use base64 instead"
  | _ => .error ("Unknown layer encoding: " ++ encoding)

/-! ## The `data` case of TMX `normalize` -/

/-- A parsed `<chunk>` child as produced by `parse`: the positional attributes
are still strings, the encoded payload is the accumulated text. -/
structure ChunkRec where
  x : String
  y : String
  width : String
  height : String
  text : String
  deriving DecidableEq, Repr

/-- The record `parse(item)` produces for a `<data>` node: optional `chunks`,
accumulated `text`, and the `encoding`/`compression` attributes. -/
structure DataRec where
  chunks : Option (List ChunkRec)
  text : Option String
  encoding : Option String
  compression : Option String
  deriving DecidableEq, Repr

/-- A decoded chunk as pushed onto `obj.chunks`. -/
structure DecChunk where
  x : ℚ
  y : ℚ
  width : ℚ
  height : ℚ
  data : TileData
  deriving DecidableEq, Repr

/-- The fields of the target object that the `data` case of `normalize`
touches. -/
structure TmxObj where
  chunks : Option (List DecChunk)
  data : Option TileData
  encoding : Option String
  deriving DecidableEq, Repr

/-- decoding of one chunk inside the `data.chunks.forEach` loop: the
positional attributes go through the unary `+` (`toNumber`), the payload
through `decode`. -/
def decodeChunk (atob : String → List ℕ) (toNumber : String → ℚ)
    (encoding compression : Option String) (c : ChunkRec) : Except String DecChunk := do
  let d ← decode atob toNumber c.text encoding compression
  .ok { x := toNumber c.x, y := toNumber c.y,
        width := toNumber c.width, height := toNumber c.height, data := d }

/-- Embedding of the `"data"` case of `normalize(obj, item)`, with the parsed
record `parse(item)` abstracted as the input `d`.

`data.encoding` is defaulted to `"xml"` first.  If the parsed record has
chunks, they are decoded and appended to `obj.chunks` and `obj.encoding`
becomes `"none"`.  The finite-map branch then runs only when `data.text` is
defined *and `obj.chunks` is (still) undefined*, setting `obj.data`. -/
def normalizeData (atob : String → List ℕ) (toNumber : String → ℚ)
    (obj : TmxObj) (d : DataRec) : Except String TmxObj := do
  let enc := some (jsOr d.encoding "xml")
  let obj1 ← match d.chunks with
    | some cs => do
        let decoded ← cs.mapM (decodeChunk atob toNumber enc d.compression)
        pure { obj with chunks := some (obj.chunks.getD [] ++ decoded),
                        encoding := some "none" }
    | none => pure obj
  if d.text.isSome ∧ obj1.chunks = none then
    match d.text with
    | some t => do
        let dec ← decode atob toNumber t enc d.compression
        pure { obj1 with data := some dec, encoding := some "none" }
    | none => pure obj1
  else
    pure obj1

/-! ## Path2D

Geometry uses `ℝ` for JavaScript numbers.  `Math.cos`/`Math.sin` become
`Real.cos`/`Real.sin`.  The shared point pool (`src/system/pooling.js`, not
part of the excerpt) is modelled from the spec, see `PathState.pool`. -/

/-- a 2D point value (the coordinates a pooled `Point` object carries). -/
structure Pt where
  x : ℝ
  y : ℝ

/-- Modelled from the spec: `TAU` from `math.js` (imported by `path2d.js` but
absent from the excerpt) is a full turn, `Math.PI * 2`. -/
noncomputable def TAU : ℝ := 2 * Real.pi

/-- The state of a `Path2D` object together with the shared point pool.

Modelled from the spec: `pool` (from `src/system/pooling.js`, absent from the
excerpt) follows the acquire/release discipline of §5 and is modelled as the
number of free pooled objects — `pool.pull` takes a free object when one
exists and allocates a fresh one otherwise (so the counter saturates at 0),
`pool.push` releases one back. -/
structure PathState where
  points : List Pt
  arcResolution : ℝ
  vertices : List Pt
  pool : ℕ

/-- a freshly constructed `Path2D` (empty path, `arcResolution = 5`, empty
vertex cache), next to an empty pool. -/
noncomputable def pathInit : PathState :=
  { points := [], arcResolution := 5, vertices := [], pool := 0 }

open Classical in
/-- Embedding of `closePath()`.  `Point.equals` is modelled from the spec as
coordinate equality (`point.js` is absent from the excerpt; the spec calls
this "coordinate equality").  When the path has more than one point and its
last point differs from its first, a new point carrying the first point's
coordinates is pulled from the pool and appended; otherwise nothing happens. -/
noncomputable def closePath (s : PathState) : PathState :=
  if 1 < s.points.length ∧ ¬ s.points.getLastD ⟨0, 0⟩ = s.points.headD ⟨0, 0⟩ then
    { s with points := s.points ++ [⟨(s.points.headD ⟨0, 0⟩).x, (s.points.headD ⟨0, 0⟩).y⟩],
             pool := s.pool - 1 }
  else s

/-- JavaScript truncating integer conversion (round toward zero), used by the
`%` remainder operator. -/
noncomputable def rtz (x : ℝ) : ℤ :=
  if 0 ≤ x then ⌊x⌋ else ⌈x⌉

/-- JavaScript `a % b`: the remainder with the sign of the dividend,
`a - b * trunc(a / b)`. -/
noncomputable def jsMod (a b : ℝ) : ℝ :=
  a - b * rtz (a / b)

/-- angle reduction in `arc`/`ellipse`: `a = a % TAU; if (a < 0) a += TAU`. -/
noncomputable def wrapTau (a : ℝ) : ℝ :=
  let m := jsMod a TAU
  if m < 0 then m + TAU else m

/-- the end angle `arc` actually draws to: both angles reduced into
`[0, TAU)`, and `if (startAngle >= endAngle) endAngle += TAU`. -/
noncomputable def normEnd (startAngle endAngle : ℝ) : ℝ :=
  if wrapTau startAngle ≥ wrapTau endAngle then wrapTau endAngle + TAU
  else wrapTau endAngle

open Classical in
/-- Embedding of `arc(x, y, radius, startAngle, endAngle, anticlockwise)`.

A call with `startAngle === endAngle` returns immediately.  Otherwise both
angles are reduced into `[0, TAU)`, the end angle is advanced one turn when it
does not exceed the start, the swept angle is computed (reversed for
anticlockwise arcs, forced to a full turn for full-circle requests), and
`length / arcResolution` interpolation points are pushed (the `for` loop with
real-valued bound `n` runs `⌈n⌉` times when `n > 0` and not at all otherwise),
followed by one final point at exactly the (normalised) end angle.  Every
pushed point is pulled from the pool. -/
noncomputable def arc (x y radius startAngle endAngle : ℝ) (anticlockwise : Bool)
    (s : PathState) : PathState :=
  if startAngle = endAngle then s else
  let fullCircle := if anticlockwise then |startAngle - endAngle| ≥ TAU
                    else |endAngle - startAngle| ≥ TAU
  let sa := wrapTau startAngle
  let ea := normEnd startAngle endAngle
  let diff0 := ea - sa
  let direction : ℝ := if anticlockwise then -1 else 1
  let diff1 := if anticlockwise then TAU - diff0 else diff0
  let diff := if fullCircle then TAU else diff1
  let length := diff * radius
  let n := length / s.arcResolution
  let dangle := diff / n
  let count := if n ≤ 0 then 0 else (⌈n⌉).toNat
  let mid := (List.range count).map (fun j =>
    Pt.mk (x + radius * Real.cos (sa + j * (direction * dangle)))
          (y + radius * Real.sin (sa + j * (direction * dangle))))
  { s with
    points := s.points ++ mid ++ [Pt.mk (x + radius * Real.cos ea) (y + radius * Real.sin ea)],
    pool := s.pool - (count + 1) }

/-! ## Path2D triangulation -/

/-- the `while (vertices.length < indices.length)` growth loop of
`triangulatePath`: each iteration pulls a point from the pool and appends
it. -/
noncomputable def growVertices (vs : List Pt) (pool n : ℕ) : List Pt × ℕ :=
  if vs.length < n then growVertices (vs ++ [⟨0, 0⟩]) (pool - 1) n
  else (vs, pool)
termination_by n - vs.length
decreasing_by simp_all; omega

/-- the `for` loop of `triangulatePath`: `vertices[i].set(points[indices[i]])`
for every `i` below the index count (entries past it are untouched here and
recycled by the shrink loop). -/
noncomputable def setVerts (points : List Pt) (indices : List ℕ) (vs : List Pt) : List Pt :=
  vs.enum.map (fun p =>
    if p.1 < indices.length then
      points.getD (indices.getD p.1 0) ⟨0, 0⟩
    else p.2)

/-- the `while (vertices.length > indices.length)` shrink loop of
`triangulatePath`: each iteration releases the last vertex back to the pool
and drops it. -/
noncomputable def shrinkVertices (vs : List Pt) (pool n : ℕ) : List Pt × ℕ :=
  if n < vs.length then shrinkVertices vs.dropLast (pool + 1) n
  else (vs, pool)
termination_by vs.length
decreasing_by simp_all [List.length_dropLast]; omega

/-- the flat `[x0, y0, x1, y1, ...]` coordinate list `points.flatMap(p => [p.x,
p.y])` handed to `earcut`. -/
def flatCoords (points : List Pt) : List ℝ :=
  points.flatMap (fun p => [p.x, p.y])

/-- Embedding of `triangulatePath()`.  The `earcut` npm package is external to
the excerpt and is abstracted as the parameter `earcutFn`, an arbitrary
function from the flattened coordinates to a triangle-index list.  The
reusable vertex buffer is grown from the pool while shorter than the index
list, its first `indices.length` entries are overwritten with copies of the
indexed path points, and every surplus entry beyond the index count is
released back to the pool and dropped. -/
noncomputable def triangulatePath (earcutFn : List ℝ → List ℕ) (s : PathState) : PathState :=
  let indices := earcutFn (flatCoords s.points)
  let g := growVertices s.vertices s.pool indices.length
  let vs2 := setVerts s.points indices g.1
  let sh := shrinkVertices vs2 g.2 indices.length
  { s with vertices := sh.1, pool := sh.2 }

/-! ## Container child ownership

Modelled from the spec: the implementations of `Container.addChild` and
`Container.removeChild` are absent from the excerpt (only
`dist/types/renderable/container.d.ts` declares them).  Per the spec and the
declaration's documentation, "Adding a child to the container will
automatically remove it from its other container. Meaning a child can only
have one parent": `addChild` first detaches the child from whatever container
currently holds it, then appends it; `removeChild` erases it from the given
container.  Containers are identified by naturals, renderables by naturals,
and the world maps each container to its ordered child sequence. -/

/-- the child sequences of all containers. -/
def World : Type := ℕ → List ℕ

/-- a scene-graph mutation: add renderable `r` to container `c`, or remove it
from `c`. -/
inductive COp where
  | add (c r : ℕ)
  | remove (c r : ℕ)
  deriving DecidableEq, Repr

/-- Modelled from the spec: one `addChild`/`removeChild` step.  `addChild`
detaches the renderable from every container (under the ownership invariant it
belongs to at most one) and appends it to the target's sequence; `removeChild`
filters it out of the target's sequence. -/
def applyOp (w : World) : COp → World
  | .add c r => fun c2 =>
      if c2 = c then (w c2).filter (fun r2 => r2 ≠ r) ++ [r]
      else (w c2).filter (fun r2 => r2 ≠ r)
  | .remove c r => fun c2 =>
      if c2 = c then (w c2).filter (fun r2 => r2 ≠ r)
      else w c2

/-- the empty scene: no container holds any child. -/
def emptyWorld : World := fun _ => []

/-- run a sequence of operations (earliest first) from the empty scene. -/
def runOps (ops : List COp) : World :=
  ops.foldl applyOp emptyWorld

/-- the single-owner invariant: no renderable sits in two containers' child
sequences at once. -/
def UniqueOwner (w : World) : Prop :=
  ∀ c1 c2 r, c1 ≠ c2 → r ∈ w c1 → r ∉ w c2

/-! ## Helper lemmas -/

lemma uniqueOwner_empty : UniqueOwner emptyWorld := by
  intro c1 c2 r _ hmem
  simp [emptyWorld] at hmem

lemma mem_applyOp_add (w : World) (c r0 c1 r : ℕ) :
    r ∈ applyOp w (.add c r0) c1 ↔ (r ∈ w c1 ∧ r ≠ r0) ∨ (r = r0 ∧ c1 = c) := by
  by_cases hc : c1 = c
  · subst hc
    simp [applyOp, List.mem_filter]
  · simp [applyOp, hc, List.mem_filter]

lemma mem_applyOp_remove (w : World) (c r0 c1 r : ℕ) :
    r ∈ applyOp w (.remove c r0) c1 → r ∈ w c1 := by
  by_cases hc : c1 = c
  · subst hc
    simp [applyOp, List.mem_filter]
    tauto
  · simp [applyOp, hc]

lemma uniqueOwner_applyOp (w : World) (op : COp) (hw : UniqueOwner w) :
    UniqueOwner (applyOp w op) := by
  cases op with
  | add c r0 =>
    intro c1 c2 r hne hmem hmem2
    rw [mem_applyOp_add] at hmem hmem2
    rcases hmem with ⟨hm1, hr1⟩ | ⟨hr1, hc1⟩
    · rcases hmem2 with ⟨hm2, _⟩ | ⟨hr2, _⟩
      · exact hw c1 c2 r hne hm1 hm2
      · exact hr1 hr2
    · rcases hmem2 with ⟨_, hr2⟩ | ⟨_, hc2⟩
      · exact hr2 hr1
      · exact hne (hc1.trans hc2.symm)
  | remove c r0 =>
    intro c1 c2 r hne hmem hmem2
    exact hw c1 c2 r hne (mem_applyOp_remove w c r0 c1 r hmem)
      (mem_applyOp_remove w c r0 c2 r hmem2)

lemma uniqueOwner_foldl (ops : List COp) :
    ∀ w : World, UniqueOwner w → UniqueOwner (ops.foldl applyOp w) := by
  induction ops with
  | nil => intro w hw; exact hw
  | cons op ops ih =>
    intro w hw
    exact ih _ (uniqueOwner_applyOp w op hw)

lemma growVertices_eq_aux (k : ℕ) :
    ∀ (vs : List Pt) (pool n : ℕ), n - vs.length ≤ k →
      growVertices vs pool n =
        (vs ++ List.replicate (n - vs.length) ⟨0, 0⟩, pool - (n - vs.length)) := by
  induction k with
  | zero =>
    intro vs pool n h
    have hn : n - vs.length = 0 := Nat.le_zero.mp h
    have hlt : ¬ vs.length < n := by omega
    rw [growVertices, if_neg hlt, hn]
    simp
  | succ k ih =>
    intro vs pool n h
    by_cases hlt : vs.length < n
    · rw [growVertices, if_pos hlt, ih _ _ _ (by simp; omega)]
      have hm : n - vs.length = (n - (vs.length + 1)) + 1 := by omega
      simp only [List.length_append, List.length_singleton, Prod.mk.injEq]
      constructor
      · rw [hm, List.replicate_succ, List.append_assoc]
        rfl
      · omega
    · rw [growVertices, if_neg hlt]
      have hn : n - vs.length = 0 := by omega
      rw [hn]
      simp

lemma growVertices_eq (vs : List Pt) (pool n : ℕ) :
    growVertices vs pool n =
      (vs ++ List.replicate (n - vs.length) ⟨0, 0⟩, pool - (n - vs.length)) :=
  growVertices_eq_aux (n - vs.length) vs pool n le_rfl

lemma shrinkVertices_eq_aux (k : ℕ) :
    ∀ (vs : List Pt) (pool n : ℕ), vs.length ≤ k →
      shrinkVertices vs pool n = (vs.take n, pool + (vs.length - n)) := by
  induction k with
  | zero =>
    intro vs pool n h
    have h0 : vs.length = 0 := Nat.le_zero.mp h
    have hlt : ¬ n < vs.length := by omega
    rw [shrinkVertices, if_neg hlt]
    have hv : vs = [] := List.length_eq_zero.mp h0
    subst hv
    simp
  | succ k ih =>
    intro vs pool n h
    by_cases hlt : n < vs.length
    · rw [shrinkVertices, if_pos hlt, ih _ _ _ (by simp [List.length_dropLast]; omega)]
      simp only [Prod.mk.injEq]
      constructor
      · rw [List.dropLast_eq_take, List.take_take]
        congr 1
        omega
      · simp [List.length_dropLast]
        omega
    · rw [shrinkVertices, if_neg hlt]
      have h1 : vs.take n = vs := List.take_of_length_le (by omega)
      have h2 : vs.length - n = 0 := by omega
      rw [h1, h2]
      simp

lemma setVerts_length (points : List Pt) (indices : List ℕ) (vs : List Pt) :
    (setVerts points indices vs).length = vs.length := by
  simp [setVerts]

lemma jsMod_eq_add_int_mul (a b : ℝ) : ∃ k : ℤ, jsMod a b = a + k * b :=
  ⟨-(rtz (a / b)), by unfold jsMod; push_cast; ring⟩

lemma wrapTau_eq_add_int_mul (a : ℝ) : ∃ k : ℤ, wrapTau a = a + k * TAU := by
  obtain ⟨k, hk⟩ := jsMod_eq_add_int_mul a TAU
  simp only [wrapTau]
  by_cases hm : jsMod a TAU < 0
  · refine ⟨k + 1, ?_⟩
    rw [if_pos hm, hk]
    push_cast
    ring
  · exact ⟨k, by rw [if_neg hm, hk]⟩

lemma normEnd_eq_add_int_mul (a b : ℝ) : ∃ k : ℤ, normEnd a b = b + k * TAU := by
  obtain ⟨k, hk⟩ := wrapTau_eq_add_int_mul b
  unfold normEnd
  by_cases hge : wrapTau a ≥ wrapTau b
  · refine ⟨k + 1, ?_⟩
    rw [if_pos hge, hk]
    push_cast
    ring
  · exact ⟨k, by rw [if_neg hge, hk]⟩

lemma cos_normEnd (a b : ℝ) : Real.cos (normEnd a b) = Real.cos b := by
  obtain ⟨k, hk⟩ := normEnd_eq_add_int_mul a b
  rw [hk, TAU]
  exact Real.cos_add_int_mul_two_pi b k

lemma sin_normEnd (a b : ℝ) : Real.sin (normEnd a b) = Real.sin b := by
  obtain ⟨k, hk⟩ := normEnd_eq_add_int_mul a b
  rw [hk, TAU]
  exact Real.sin_add_int_mul_two_pi b k

/-! ## Claim theorems -/

/-- C2: over every sequence of addChild/removeChild operations from the empty
scene, no renderable is ever present in two containers' child sequences at the
same time — `addChild` transfers ownership by detaching the child from the
container that held it. -/
theorem container_single_owner (ops : List COp) (c1 c2 r : ℕ)
    (hne : c1 ≠ c2) (hmem : r ∈ runOps ops c1) : r ∉ runOps ops c2 :=
  uniqueOwner_foldl ops emptyWorld uniqueOwner_empty c1 c2 r hne hmem

/-- witness for C2: adding renderable 5 to container 0 and then to container 1
leaves it in container 1 only. -/
theorem container_single_owner_witness :
    (1 : ℕ) ≠ 0 ∧ 5 ∈ runOps [COp.add 0 5, COp.add 1 5] 1 ∧
      5 ∉ runOps [COp.add 0 5, COp.add 1 5] 0 :=
  ⟨by decide, by decide,
    container_single_owner [COp.add 0 5, COp.add 1 5] 1 0 5 (by decide) (by decide)⟩

/-- C8: an `arc` call whose start and end angles are exactly equal is a
no-op — the path state (point sequence and pool) is returned unchanged, so
nothing is appended and nothing is pulled from the pool. -/
theorem arc_equal_angles_noop (x y radius θ : ℝ) (ac : Bool) (s : PathState) :
    arc x y radius θ θ ac s = s := by
  unfold arc
  simp

/-- C9: with any type tag other than `int`, `float` and `bool`, `setTMXValue`
maps the empty string to the boolean `true`, for every property name and every
behaviour of the external predicates and parsers. -/
theorem setTMXValue_empty_string (isB isN : String → Bool) (toNum : String → ℚ)
    (jp ev : String → Option TmxValue) (name type : String)
    (h1 : ¬(type = "int" ∨ type = "float")) (h2 : type ≠ "bool") :
    setTMXValue isB isN toNum jp ev name type (.str "") = .ok (.bool true) := by
  simp [setTMXValue, h1, h2, vectorFix, Except.map]

/-- witness for C9: the default `"string"` type maps `""` to `true`. -/
theorem setTMXValue_empty_string_witness :
    setTMXValue (fun _ => false) (fun _ => false) (fun _ => 0)
      (fun _ => none) (fun _ => none) "lives" "string" (.str "") = .ok (.bool true) :=
  setTMXValue_empty_string _ _ _ _ _ "lives" "string" (by decide) (by decide)

/-- C1: after every `triangulatePath` call the vertex buffer's length equals
the length of the triangle-index list produced by that triangulation, for
every possible behaviour of `earcut`; the pool accounting shows the buffer is
grown by pulling exactly the missing points and every surplus entry is
released back to the pool. -/
theorem triangulatePath_buffer (ec : List ℝ → List ℕ) (s : PathState) :
    ((triangulatePath ec s).vertices).length = (ec (flatCoords s.points)).length ∧
    (triangulatePath ec s).pool =
      s.pool - ((ec (flatCoords s.points)).length - s.vertices.length)
        + (s.vertices.length - (ec (flatCoords s.points)).length) := by
  have haux : shrinkVertices
      (setVerts s.points (ec (flatCoords s.points))
        (growVertices s.vertices s.pool (ec (flatCoords s.points)).length).1)
      (growVertices s.vertices s.pool (ec (flatCoords s.points)).length).2
      (ec (flatCoords s.points)).length =
      (_, _) := shrinkVertices_eq_aux _ _ _ _ le_rfl
  constructor
  · simp only [triangulatePath, haux]
    simp [setVerts_length, growVertices_eq, List.length_take]
    omega
  · simp only [triangulatePath, haux]
    simp [setVerts_length, growVertices_eq]
    omega

/-- C3: whenever `startAngle ≠ endAngle`, the last point `arc` appends is
exactly `(x + radius·cos(endAngle), y + radius·sin(endAngle))` — the final
push uses the normalised end angle, which differs from the requested one by a
whole number of turns, so its cosine and sine are unchanged; how many
interpolation points the loop produced is irrelevant. -/
theorem arc_terminal_point (x y radius a b : ℝ) (ac : Bool) (s : PathState)
    (h : a ≠ b) :
    ((arc x y radius a b ac s).points).getLast? =
      some ⟨x + radius * Real.cos b, y + radius * Real.sin b⟩ := by
  simp only [arc, if_neg h]
  rw [List.getLast?_concat, cos_normEnd, sin_normEnd]

/-- witness for C3: a half-turn arc of radius 1 ends exactly at angle π. -/
theorem arc_terminal_point_witness :
    (0 : ℝ) ≠ Real.pi ∧
      ((arc 0 0 1 0 Real.pi false pathInit).points).getLast? =
        some ⟨0 + 1 * Real.cos Real.pi, 0 + 1 * Real.sin Real.pi⟩ :=
  ⟨fun h => Real.pi_ne_zero h.symm,
    arc_terminal_point 0 0 1 0 Real.pi false pathInit (fun h => Real.pi_ne_zero h.symm)⟩

/-- C10: an `arc` call with radius 0 and distinct angles appends exactly one
point, at `(x, y)`: the interpolation loop's real-valued bound is 0, so it
runs zero times and the sweep-by-zero division never reaches the path. -/
theorem arc_zero_radius (x y a b : ℝ) (ac : Bool) (s : PathState) (h : a ≠ b) :
    (arc x y 0 a b ac s).points = s.points ++ [⟨x, y⟩] := by
  simp [arc, if_neg h]

/-- witness for C10: a radius-0 arc from angle 0 to angle 1 appends the single
point `(5, 7)`. -/
theorem arc_zero_radius_witness :
    (0 : ℝ) ≠ 1 ∧ (arc 5 7 0 0 1 false pathInit).points = pathInit.points ++ [⟨5, 7⟩] :=
  ⟨by norm_num, arc_zero_radius 5 7 0 1 false pathInit (by norm_num)⟩

open Classical in
/-- C4: `closePath` appends a pool-pulled copy of the first point exactly when
the path has more than one point and its last point is not coordinate-equal to
its first, is a no-op otherwise, and is idempotent — a second call in
succession never appends anything. -/
theorem closePath_idempotent (s : PathState) :
    ((closePath s).points =
      if 1 < s.points.length ∧ ¬ s.points.getLastD ⟨0, 0⟩ = s.points.headD ⟨0, 0⟩
      then s.points ++ [s.points.headD ⟨0, 0⟩] else s.points) ∧
    closePath (closePath s) = closePath s := by
  by_cases h : 1 < s.points.length ∧ ¬ s.points.getLastD ⟨0, 0⟩ = s.points.headD ⟨0, 0⟩
  · have h1 : closePath s =
        { s with points := s.points ++ [s.points.headD ⟨0, 0⟩], pool := s.pool - 1 } := by
      unfold closePath
      rw [if_pos h]
    obtain ⟨p, rest, hps⟩ : ∃ p rest, s.points = p :: rest := by
      cases hp : s.points with
      | nil => rw [hp] at h; simp at h
      | cons p rest => exact ⟨p, rest, rfl⟩
    refine ⟨by rw [h1, if_pos h], ?_⟩
    rw [h1]
    unfold closePath
    rw [if_neg]
    intro hcond
    apply hcond.2
    rw [hps]
    show ((p :: rest) ++ [p]).getLastD ⟨0, 0⟩ = ((p :: rest) ++ [p]).headD ⟨0, 0⟩
    rw [List.getLastD_concat]
    rfl
  · have h1 : closePath s = s := by
      unfold closePath
      rw [if_neg h]
    refine ⟨by rw [h1, if_neg h], ?_⟩
    rw [h1]
    exact h1

/-- C7: decoding a base64-encoded tile-layer payload with any compression
other than `"none"` raises an error — either the typed-array construction
fails or, once the words are assembled, `decompress` throws; no partial or
fallback result is ever produced.  With compression `"none"` the payload is
decoded into the 32-bit word array. -/
theorem decode_base64_compression (atob : String → List ℕ) (toNum : String → ℚ)
    (data comp : String) (h1 : comp ≠ "none") (h2 : comp ≠ "") :
    (∃ e, decode atob toNum data (some "base64") (some comp) = .error e) ∧
    decode atob toNum data (some "base64") (some "none") =
      (decodeBase64AsArray atob data 4).map TileData.words := by
  constructor
  · cases hd : decodeBase64AsArray atob data 4 with
    | error e =>
      exact ⟨e, by simp [decode, jsOr, h2, hd, Bind.bind, Except.bind]⟩
    | ok w =>
      exact ⟨"GZIP/ZLIB compressed TMX Tile Map not supported!",
        by simp [decode, jsOr, h1, h2, hd, decompress, Bind.bind, Except.bind]⟩
  · cases hd : decodeBase64AsArray atob data 4 with
    | error e => simp [decode, jsOr, hd, Except.map, Bind.bind, Except.bind]
    | ok w => simp [decode, jsOr, hd, Except.map, Bind.bind, Except.bind]

/-- witness for C7: gzip compression is rejected, no compression decodes. -/
theorem decode_base64_compression_witness :
    (∃ e, decode (fun _ => []) (fun _ => 0) "" (some "base64") (some "gzip") = .error e) ∧
      decode (fun _ => []) (fun _ => 0) "" (some "base64") (some "none") =
        (decodeBase64AsArray (fun _ => []) "" 4).map TileData.words :=
  ⟨(decode_base64_compression (fun _ => []) (fun _ => 0) "" "gzip"
      (by decide) (by decide)).1,
   (decode_base64_compression (fun _ => []) (fun _ => 0) "" "gzip"
      (by decide) (by decide)).2⟩

/-- C6: in the default-heuristic branch, a string tagged `json:` (resp.
`eval:`) whose payload cannot be parsed (resp. evaluated) makes `setTMXValue`
raise `Unable to parse JSON`/`Unable to evaluate` synchronously, while a
parsable payload returns the parsed value (subject only to the documented
`ratio`/`anchorPoint` vector normalisation). -/
theorem setTMXValue_tagged_payload (isB isN : String → Bool) (toNum : String → ℚ)
    (jp ev : String → Option TmxValue) (name type s : String)
    (h1 : ¬(type = "int" ∨ type = "float")) (h2 : type ≠ "bool")
    (h3 : isB s = false) (h4 : isN s = false) (h5 : s ≠ "") :
    (hasTag "json:" s = true →
      (jp (s.drop 5) = none →
        setTMXValue isB isN toNum jp ev name type (.str s) =
          .error ("Unable to parse JSON: " ++ s.drop 5)) ∧
      (∀ v, jp (s.drop 5) = some v →
        setTMXValue isB isN toNum jp ev name type (.str s) = .ok (vectorFix name v))) ∧
    (hasTag "json:" s = false → hasTag "eval:" s = true →
      (ev (s.drop 5) = none →
        setTMXValue isB isN toNum jp ev name type (.str s) =
          .error ("Unable to evaluate: " ++ s.drop 5)) ∧
      (∀ v, ev (s.drop 5) = some v →
        setTMXValue isB isN toNum jp ev name type (.str s) = .ok (vectorFix name v))) := by
  refine ⟨fun hj => ⟨fun hp => ?_, fun v hp => ?_⟩,
          fun hj he => ⟨fun hp => ?_, fun v hp => ?_⟩⟩ <;>
    simp [setTMXValue, h1, h2, h3, h4, h5, hj, hp, Except.map] <;>
    simp [he]

/-- witness for C6: an unparsable `json:` payload raises, a parsable one
returns the parsed value. -/
theorem setTMXValue_tagged_payload_witness :
    setTMXValue (fun _ => false) (fun _ => false) (fun _ => 0)
        (fun p => if p = "good" then some (.num 7) else none) (fun _ => none)
        "hp" "string" (.str "json:bad") =
      .error ("Unable to parse JSON: " ++ "json:bad".drop 5) ∧
    setTMXValue (fun _ => false) (fun _ => false) (fun _ => 0)
        (fun p => if p = "good" then some (.num 7) else none) (fun _ => none)
        "hp" "string" (.str "json:good") = .ok (vectorFix "hp" (.num 7)) :=
  ⟨((setTMXValue_tagged_payload (fun _ => false) (fun _ => false) (fun _ => 0)
      (fun p => if p = "good" then some (.num 7) else none) (fun _ => none)
      "hp" "string" "json:bad"
      (by decide) (by decide) rfl rfl (by decide)).1 (by decide)).1 (by decide),
   ((setTMXValue_tagged_payload (fun _ => false) (fun _ => false) (fun _ => 0)
      (fun p => if p = "good" then some (.num 7) else none) (fun _ => none)
      "hp" "string" "json:good"
      (by decide) (by decide) rfl rfl (by decide)).1 (by decide)).2 (.num 7) (by decide)⟩

/-- C5: in the `data` case of `normalize`, when the parsed record defines both
`chunks` and `text`, the chunks win: the decoded chunks are appended to
`obj.chunks` and the text branch never runs, so `obj.data` is left exactly as
it was. -/
theorem normalizeData_chunks_precedence (atob : String → List ℕ) (toNum : String → ℚ)
    (obj : TmxObj) (d : DataRec) (cs : List ChunkRec) (t : String) (obj2 : TmxObj)
    (hc : d.chunks = some cs) (ht : d.text = some t)
    (hres : normalizeData atob toNum obj d = .ok obj2) :
    obj2.data = obj.data ∧
      ∃ dec, obj2.chunks = some (obj.chunks.getD [] ++ dec) := by
  simp only [normalizeData, hc] at hres
  cases hm : cs.mapM (decodeChunk atob toNum (some (jsOr d.encoding "xml")) d.compression) with
  | error e =>
    rw [hm] at hres
    simp [Bind.bind, Except.bind] at hres
  | ok decoded =>
    rw [hm] at hres
    simp [Bind.bind, Except.bind, ht, pure, Except.pure] at hres
    subst hres
    exact ⟨rfl, decoded, rfl⟩

/-- witness for C5: a record with (empty) chunks and text `"9"` leaves
`obj.data` untouched and sets `obj.chunks`. -/
theorem normalizeData_chunks_precedence_witness :
    ({ chunks := some [], data := none, encoding := some "none" } : TmxObj).data
        = ({ chunks := none, data := none, encoding := none } : TmxObj).data ∧
      ∃ dec, ({ chunks := some [], data := none, encoding := some "none" } : TmxObj).chunks
        = some (({ chunks := none, data := none, encoding := none } : TmxObj).chunks.getD [] ++ dec) :=
  normalizeData_chunks_precedence (fun _ => []) (fun _ => 0)
    { chunks := none, data := none, encoding := none }
    { chunks := some [], text := some "9", encoding := some "csv", compression := none }
    [] "9" { chunks := some [], data := none, encoding := some "none" }
    rfl rfl rfl

end MelonJS
